import Mathlib

/-!
Shallow embedding of `src/jira_remaining_points.py` (a single-file burndown
calculator) and proofs about it.

Modelling conventions:
* Calendar dates are day ordinals (`Nat`); Python's `datetime.date` values are
  totally ordered and only compared / incremented by one day, so the ordinal
  abstraction is exact.
* Python floats are modelled as exact rationals (`ℚ`).
* Python's stable `list.sort(key=...)` is modelled by `List.insertionSort`,
  which is likewise stable for a total preorder.
* Statuses, issue keys and field names are `String`s, as in the source.
-/

namespace JiraRemainingPoints

/-- One entry of a changelog history's `items` list (the fields the program
reads: `field`, `fromString`, `toString`). -/
structure ChangeItem where
  field : String
  fromString : String
  toStatusString : String
deriving Repr, DecidableEq

/-- One changelog history entry: its `created` date plus its `items`. -/
structure History where
  created : Nat
  items : List ChangeItem
deriving Repr, DecidableEq

/-- A status-change event `(when_date, from, to)` as built by
`extract_status_changes`. -/
structure StatusChange where
  date : Nat
  fromStatus : String
  toStatus : String
deriving Repr, DecidableEq

/-- The configuration the calculation reads from the environment. -/
structure Config where
  TRACK_STATUS_NAMES : List String
  UAT_STATUS_NAME : String
  TREAT_UAT_AS_DONE_PERMANENT : Bool
deriving Repr, DecidableEq

/-- Comparison key used by `events.sort(key=lambda x: x[0])`. -/
def byDate (a b : StatusChange) : Prop := a.date ≤ b.date

instance : DecidableRel byDate := fun a b => Nat.decLe a.date b.date

instance : IsTotal StatusChange byDate := ⟨fun a b => Nat.le_total a.date b.date⟩

instance : IsTrans StatusChange byDate := ⟨fun _ _ _ hab hbc => Nat.le_trans hab hbc⟩

/-- The unsorted event list built by the nested `for` loops of
`extract_status_changes`: for each history, each item on the `status` field
becomes `(h.created, fromString, toString)`, in source order. -/
def rawStatusEvents : List History → List StatusChange
  | [] => []
  | h :: rest =>
      h.items.filterMap (fun item =>
        if item.field = "status" then
          some { date := h.created, fromStatus := item.fromString,
                 toStatus := item.toStatusString }
        else none)
      ++ rawStatusEvents rest

/-- `extract_status_changes(histories)`: keep only `status`-field items and
sort the events stably by date ascending. -/
def extract_status_changes (histories : List History) : List StatusChange :=
  List.insertionSort byDate (rawStatusEvents histories)

/-- `first_date_reaching_status(histories, target)`: the date of the first
sorted event whose `to` status equals the target, else none. -/
def first_date_reaching_status (histories : List History) (target : String) :
    Option Nat :=
  ((extract_status_changes histories).find? (fun e => e.toStatus == target)).map
    (fun e => e.date)

/-- The `for`/`break` loop body of `status_on_date`: walk the (sorted) events,
updating the current status while the event date is ≤ `day`, stopping at the
first later event. -/
def applyChanges (current : String) (day : Nat) : List StatusChange → String
  | [] => current
  | e :: rest => if e.date ≤ day then applyChanges e.toStatus day rest else current

/-- `status_on_date(initial_status, histories, day)`. -/
def status_on_date (initial_status : String) (histories : List History)
    (day : Nat) : String :=
  applyChanges initial_status day (extract_status_changes histories)

/-- The raw story-points field value of an issue, as the program sees it after
JSON decoding: either effectively absent (missing, `null`), a value `float()`
maps to the number `q` (numbers and numeric strings), or a value on which
`float()` raises (any non-numeric value). -/
inductive SPRaw
  | absent
  | num (q : ℚ)
  | unparseable
deriving Repr, DecidableEq

/-- Lines 130–135: `sp = fields.get(SP_FIELD) or 0.0` followed by
`try: sp = float(sp) except: sp = 0.0`.  An absent field gives `0.0`; a falsy
value (`0`, `""`) is replaced by `0.0` before parsing, which is the same number
`float` would produce; a parseable value gives its numeric value; an
unparseable value gives `0.0`. -/
def parse_sp : SPRaw → ℚ
  | SPRaw.absent => 0
  | SPRaw.num q => q
  | SPRaw.unparseable => 0

/-- Truthiness-aware guard `hit_uat_on and day >= hit_uat_on`: a `date` object
is always truthy in Python, so this is "the UAT date exists and is ≤ day". -/
def uat_reached (hit_uat_on : Option Nat) (day : Nat) : Bool :=
  match hit_uat_on with
  | none => false
  | some u => decide (u ≤ day)

/-- Lines 146–158: the remaining-points value contributed by one issue on one
day (the issue's parsed story points, initial status and histories given). -/
def remaining_on_day (cfg : Config) (sp : ℚ) (initial_status : String)
    (histories : List History) (day : Nat) : ℚ :=
  let hit_uat_on := first_date_reaching_status histories cfg.UAT_STATUS_NAME
  if uat_reached hit_uat_on day && cfg.TREAT_UAT_AS_DONE_PERMANENT then 0
  else
    let status_today := status_on_date initial_status histories day
    if uat_reached hit_uat_on day && !cfg.TREAT_UAT_AS_DONE_PERMANENT then
      if status_today = cfg.UAT_STATUS_NAME then 0
      else if status_today ∈ cfg.TRACK_STATUS_NAMES then sp else 0
    else
      if status_today ∈ cfg.TRACK_STATUS_NAMES then sp else 0

/-- Fuel-indexed day iterator: `n` steps starting at `cur`.  Structural
counterpart of the `while cur <= end_date` generator loop. -/
def daterangeAux : Nat → Nat → List Nat
  | 0, _ => []
  | n + 1, cur => cur :: daterangeAux n (cur + 1)

/-- `daterange(start_date, end_date)`: the inclusive day range; yields
`start_date, start_date+1, ..., end_date` (empty if start > end). -/
def daterange (start_date end_date : Nat) : List Nat :=
  daterangeAux (end_date + 1 - start_date) start_date

/-- One row of the detailed table (the dict appended to `rows`). -/
structure DailyRecord where
  date : Nat
  issue : String
  status : String
  story_points : ℚ
  remaining_for_issue : ℚ
deriving Repr, DecidableEq

/-- Everything the main loop knows about one fetched issue. -/
structure IssueData where
  key : String
  sp_field : SPRaw
  initial_status : String
  created : Nat
  histories : List History
deriving Repr, DecidableEq

/-- The record appended to `rows` for one issue and one day (lines 160–166):
note that `status` recomputes `status_on_date` independently of the
computation inside `remaining_on_day`. -/
def recordFor (cfg : Config) (iss : IssueData) (day : Nat) : DailyRecord :=
  let sp := parse_sp iss.sp_field
  { date := day, issue := iss.key,
    status := status_on_date iss.initial_status iss.histories day,
    story_points := sp,
    remaining_for_issue :=
      remaining_on_day cfg sp iss.initial_status iss.histories day }

/-- The inner `for day in days` loop for one issue: days before the issue's
creation date are skipped (`continue`), every other day emits a record. -/
def issueRows (cfg : Config) (days : List Nat) (iss : IssueData) :
    List DailyRecord :=
  days.filterMap (fun day =>
    if day < iss.created then none else some (recordFor cfg iss day))

/-- The outer `for key in issue_keys` loop: rows of all issues, in order. -/
def rowsForIssues (cfg : Config) (days : List Nat) :
    List IssueData → List DailyRecord
  | [] => []
  | iss :: rest => issueRows cfg days iss ++ rowsForIssues cfg days rest

/-- The fetched inputs of one run, after all network calls. -/
structure Inputs where
  sprint_start : Nat
  sprint_end : Nat
  issues : List IssueData
  cfg : Config
deriving Repr

/-- The full `rows` list of one run. -/
def all_rows (inp : Inputs) : List DailyRecord :=
  rowsForIssues inp.cfg (daterange inp.sprint_start inp.sprint_end) inp.issues

/-- `by_day.setdefault(d, 0.0); by_day[d] += v` on an insertion-ordered
association list: add `v` to the existing entry for `d`, else append a new
entry at the end. -/
def bump : List (Nat × ℚ) → Nat → ℚ → List (Nat × ℚ)
  | [], d, v => [(d, v)]
  | (k, x) :: rest, d, v =>
      if k = d then (k, x + v) :: rest else (k, x) :: bump rest d v

/-- One step of the aggregation loop over `rows`. -/
def dayStep (m : List (Nat × ℚ)) (r : DailyRecord) : List (Nat × ℚ) :=
  bump m r.date r.remaining_for_issue

/-- Lines 172–175: the `by_day` dict after folding all rows. -/
def by_day (rows : List DailyRecord) : List (Nat × ℚ) :=
  rows.foldl dayStep []

/-- Round a rational to the nearest integer, ties to even — the rounding of
Python's `f"{x:.2f}"` presentation (floats are modelled as exact rationals). -/
def roundHalfEven (q : ℚ) : ℤ :=
  let f : ℤ := q.floor
  let r : ℤ := q.num - f * (q.den : ℤ)
  if 2 * r < (q.den : ℤ) then f
  else if (q.den : ℤ) < 2 * r then f + 1
  else if f % 2 = 0 then f else f + 1

/-- Two-digit zero padding of a remainder in `[0, 100)`. -/
def pad2 (r : ℤ) : String :=
  if r < 10 then "0" ++ toString r else toString r

/-- `f"{x:.2f}"`: render with exactly two decimal digits. -/
def format2 (q : ℚ) : String :=
  let n := roundHalfEven (q * 100)
  if n < 0 then "-" ++ toString (-n / 100) ++ "." ++ pad2 (-n % 100)
  else toString (n / 100) ++ "." ++ pad2 (n % 100)

/-- Lines 177–182: the daily-totals table, one rendered row per key of
`by_day`, keys sorted ascending. -/
def daily_table (rows : List DailyRecord) : List (Nat × String) :=
  let m := by_day rows
  (List.insertionSort (· ≤ ·) (m.map Prod.fst)).map
    (fun d => (d, format2 ((m.lookup d).getD 0)))

/-- Sort key of the details table: `(date, issue)` lexicographically. -/
def recLe (a b : DailyRecord) : Prop :=
  a.date < b.date ∨ (a.date = b.date ∧ (a.issue < b.issue ∨ a.issue = b.issue))

instance : DecidableRel recLe := fun a b => by
  unfold recLe
  infer_instance

/-- Lines 185–190: the details table, rows sorted by `(date, issue)`. -/
def details_table (rows : List DailyRecord) : List DailyRecord :=
  List.insertionSort recLe rows

/-- The whole computation from fetched inputs to the two output tables. -/
def compute_tables (inp : Inputs) :
    List (Nat × String) × List DailyRecord :=
  let rows := all_rows inp
  (daily_table rows, details_table rows)

/-- An HTTP response, reduced to what `get` inspects: status code and body. -/
structure HttpResponse where
  status : Nat
  body : String
deriving Repr, DecidableEq

/-- Observable outcome of one call to `get`: the decoded body or the failing
status code, how many requests went out, and how long the call slept. -/
structure GetOutcome where
  result : Except Nat String
  requests : Nat
  sleptSeconds : Nat
deriving Repr

/-- `Response.raise_for_status()` raises exactly for status codes ≥ 400. -/
def raise_for_status_fails (status : Nat) : Bool := decide (400 ≤ status)

/-- Lines 27–33: issue the request; on a 429 sleep five seconds and issue it
once more; then `raise_for_status` on whichever response is current.  `r1` is
the server's answer to the first request, `r2` its answer to a (potential)
second one. -/
def get (r1 r2 : HttpResponse) : GetOutcome :=
  if r1.status = 429 then
    if raise_for_status_fails r2.status then
      { result := Except.error r2.status, requests := 2, sleptSeconds := 5 }
    else
      { result := Except.ok r2.body, requests := 2, sleptSeconds := 5 }
  else if raise_for_status_fails r1.status then
    { result := Except.error r1.status, requests := 1, sleptSeconds := 0 }
  else
    { result := Except.ok r1.body, requests := 1, sleptSeconds := 0 }

/-- The default configuration (`TRACK_STATUS_NAMES`, `UAT_STATUS_NAME`,
`UAT_IS_PERMANENT` defaults of the source). -/
def cfg0 : Config :=
  { TRACK_STATUS_NAMES := ["To Do", "In Progress", "Code Review"],
    UAT_STATUS_NAME := "UAT",
    TREAT_UAT_AS_DONE_PERMANENT := true }

/-- A three-day sprint with a single issue created on its last day. -/
def issA : IssueData :=
  { key := "A-1", sp_field := SPRaw.num 3, initial_status := "To Do",
    created := 2, histories := [] }

/-- Concrete run input: sprint days 0..2, one issue created on day 2. -/
def ex1 : Inputs :=
  { sprint_start := 0, sprint_end := 2, issues := [issA], cfg := cfg0 }

/-- Modelled from the spec: the per-day record computed with a single
`status_on_date` call whose value is reused both for the `status` column and
for the remaining-value decision (the refactoring the spec's design note asks
for). -/
def record_for_once (cfg : Config) (iss : IssueData) (day : Nat) :
    DailyRecord :=
  let sp := parse_sp iss.sp_field
  let hit_uat_on := first_date_reaching_status iss.histories cfg.UAT_STATUS_NAME
  let status_today := status_on_date iss.initial_status iss.histories day
  let remain : ℚ :=
    if uat_reached hit_uat_on day && cfg.TREAT_UAT_AS_DONE_PERMANENT then 0
    else if uat_reached hit_uat_on day && !cfg.TREAT_UAT_AS_DONE_PERMANENT then
      if status_today = cfg.UAT_STATUS_NAME then 0
      else if status_today ∈ cfg.TRACK_STATUS_NAMES then sp else 0
    else if status_today ∈ cfg.TRACK_STATUS_NAMES then sp else 0
  { date := day, issue := iss.key, status := status_today,
    story_points := sp, remaining_for_issue := remain }

/-! ### Small unfolding lemmas -/

@[simp]
theorem uat_reached_none (day : Nat) : uat_reached none day = false := rfl

@[simp]
theorem uat_reached_some (u day : Nat) :
    uat_reached (some u) day = decide (u ≤ day) := rfl

/-- The remaining value is always either `0` or the full story-point value. -/
theorem remaining_zero_or_sp (cfg : Config) (sp : ℚ) (init : String)
    (histories : List History) (day : Nat) :
    remaining_on_day cfg sp init histories day = 0 ∨
      remaining_on_day cfg sp init histories day = sp := by
  simp only [remaining_on_day]
  split
  · exact Or.inl rfl
  · split
    · split
      · exact Or.inl rfl
      · split
        · exact Or.inr rfl
        · exact Or.inl rfl
    · split
      · exact Or.inr rfl
      · exact Or.inl rfl

/-- Membership in one issue's rows: exactly the records of non-skipped days. -/
theorem mem_issueRows {cfg : Config} {days : List Nat} {iss : IssueData}
    {r : DailyRecord} :
    r ∈ issueRows cfg days iss ↔
      ∃ day ∈ days, ¬ day < iss.created ∧ r = recordFor cfg iss day := by
  unfold issueRows
  rw [List.mem_filterMap]
  constructor
  · rintro ⟨d, hd, hf⟩
    by_cases hlt : d < iss.created
    · rw [if_pos hlt] at hf
      cases hf
    · rw [if_neg hlt] at hf
      exact ⟨d, hd, hlt, (Option.some.inj hf).symm⟩
  · rintro ⟨d, hd, hlt, rfl⟩
    exact ⟨d, hd, by rw [if_neg hlt]⟩

/-- Membership in the concatenation of all issues' rows. -/
theorem mem_rowsForIssues {cfg : Config} {days : List Nat} {r : DailyRecord} :
    ∀ {l : List IssueData}, r ∈ rowsForIssues cfg days l ↔
      ∃ iss ∈ l, r ∈ issueRows cfg days iss := by
  intro l
  induction l with
  | nil => simp [rowsForIssues]
  | cons iss rest ih =>
      simp only [rowsForIssues, List.mem_append, ih, List.mem_cons]
      constructor
      · rintro (h | ⟨i, hi, hr⟩)
        · exact ⟨iss, Or.inl rfl, h⟩
        · exact ⟨i, Or.inr hi, hr⟩
      · rintro ⟨i, hi | hi, hr⟩
        · exact Or.inl (hi ▸ hr)
        · exact Or.inr ⟨i, hi, hr⟩

/-! ### Claim theorems (first group) -/

/-- Claim C2: the remaining value of an issue on a day follows the UAT case
analysis — permanent UAT zeroes everything from the first UAT date on; a
non-permanent UAT zeroes only while the day's status is the UAT status, else
the tracked-status rule applies; before the UAT date (or without one) the
tracked-status rule applies. -/
theorem remaining_on_day_cases (cfg : Config) (sp : ℚ) (init : String)
    (histories : List History) (day : Nat) :
    remaining_on_day cfg sp init histories day =
      (let status := status_on_date init histories day
       match first_date_reaching_status histories cfg.UAT_STATUS_NAME with
       | some uatDate =>
           if uatDate ≤ day then
             if cfg.TREAT_UAT_AS_DONE_PERMANENT then 0
             else if status = cfg.UAT_STATUS_NAME then 0
             else if status ∈ cfg.TRACK_STATUS_NAMES then sp else 0
           else if status ∈ cfg.TRACK_STATUS_NAMES then sp else 0
       | none => if status ∈ cfg.TRACK_STATUS_NAMES then sp else 0) := by
  simp only [remaining_on_day]
  cases hfd : first_date_reaching_status histories cfg.UAT_STATUS_NAME with
  | none => simp
  | some u =>
      by_cases hu : u ≤ day
      · cases hperm : cfg.TREAT_UAT_AS_DONE_PERMANENT <;> simp [hu, hperm]
      · cases hperm : cfg.TREAT_UAT_AS_DONE_PERMANENT <;> simp [hu, hperm]

/-- Claim C5 counterexample: a fetched story-point value of −5 is parseable,
so the program uses −5 — a negative number — as the story-point value,
contradicting non-negativity. -/
theorem parse_sp_negative_counterexample :
    parse_sp (SPRaw.num (-5)) = -5 ∧ ¬ 0 ≤ parse_sp (SPRaw.num (-5)) := by
  decide

/-- Claim C5 (amended): the story-point value defaults to 0 when the field is
absent or unparseable, and is otherwise exactly the fetched numeric value —
negative values included; no non-negativity is enforced. -/
theorem parse_sp_characterization (q : ℚ) :
    parse_sp SPRaw.absent = 0 ∧ parse_sp SPRaw.unparseable = 0 ∧
      parse_sp (SPRaw.num q) = q :=
  ⟨rfl, rfl, rfl⟩

/-- Claim C7: a rate-limited first response causes exactly one retry after a
fixed five-second sleep and the retry's outcome (success or failure) is
final; any other first response is decided immediately with a single request;
at most two requests are ever issued. -/
theorem get_retry_policy (r1 r2 : HttpResponse) :
    (get r1 r2).requests = (if r1.status = 429 then 2 else 1) ∧
    (get r1 r2).sleptSeconds = (if r1.status = 429 then 5 else 0) ∧
    (get r1 r2).result =
      (let deciding := if r1.status = 429 then r2 else r1
       if raise_for_status_fails deciding.status then
         Except.error deciding.status
       else Except.ok deciding.body) ∧
    (get r1 r2).requests ≤ 2 := by
  unfold get
  by_cases h1 : r1.status = 429
  · cases h2 : raise_for_status_fails r2.status <;> simp [h1, h2]
  · cases h2 : raise_for_status_fails r1.status <;> simp [h1, h2]

/-- Claim C8: the computation from fetched inputs to the two output tables is
a pure function, so identical inputs yield identical tables. -/
theorem compute_tables_deterministic (i j : Inputs) (h : i = j) :
    compute_tables i = compute_tables j := by
  rw [h]

/-- Witness for C8 at a concrete input. -/
theorem compute_tables_deterministic_witness :
    compute_tables ex1 = compute_tables ex1 :=
  compute_tables_deterministic ex1 ex1 rfl

/-- Claim C9: the record built with two independent `status_on_date`
computations (as the source does) equals the record built computing the
status once and reusing it for both the status column and the
remaining-value decision. -/
theorem record_single_status_refinement (cfg : Config) (iss : IssueData)
    (day : Nat) :
    recordFor cfg iss day = record_for_once cfg iss day := rfl

/-- Claim C10: every emitted record's remaining value is exactly 0 or exactly
its story-point value. -/
theorem remaining_zero_or_full (inp : Inputs) (r : DailyRecord)
    (h : r ∈ all_rows inp) :
    r.remaining_for_issue = 0 ∨ r.remaining_for_issue = r.story_points := by
  rcases mem_rowsForIssues.mp h with ⟨iss, _, hr⟩
  rcases mem_issueRows.mp hr with ⟨day, _, _, rfl⟩
  simpa [recordFor] using
    remaining_zero_or_sp inp.cfg (parse_sp iss.sp_field) iss.initial_status
      iss.histories day

/-- The single record of the `ex1` run. -/
def rec1 : DailyRecord :=
  { date := 2, issue := "A-1", status := "To Do", story_points := 3,
    remaining_for_issue := 3 }

/-- Witness for C10 at a concrete emitted record. -/
theorem remaining_zero_or_full_witness :
    rec1 ∈ all_rows ex1 ∧
      (rec1.remaining_for_issue = 0 ∨
        rec1.remaining_for_issue = rec1.story_points) :=
  ⟨by decide, remaining_zero_or_full ex1 rec1 (by decide)⟩

/-! ### Status reconstruction (C3) -/

/-- `getLast?` of a cons: the last of the tail, defaulting to the head. -/
theorem getLast_cons_getD {α : Type} (a : α) (l : List α) :
    (a :: l).getLast? = some (l.getLast?.getD a) := by
  induction l generalizing a with
  | nil => rfl
  | cons b t ih =>
      rw [List.getLast?_cons_cons, ih b]
      rfl

/-- On a date-sorted event list, the `for`/`break` loop returns the `to`
status of the last event with date ≤ `day` (or the start value). -/
theorem applyChanges_eq_getLast (day : Nat) :
    ∀ (l : List StatusChange), l.Pairwise byDate → ∀ c,
      applyChanges c day l =
        ((l.filter (fun e => decide (e.date ≤ day))).getLast?).elim c
          (fun e => e.toStatus) := by
  intro l
  induction l with
  | nil => intro _ c; rfl
  | cons e rest ih =>
      intro h c
      rcases List.pairwise_cons.mp h with ⟨he, hrest⟩
      by_cases hd : e.date ≤ day
      · simp only [applyChanges, if_pos hd]
        rw [ih hrest e.toStatus,
          List.filter_cons_of_pos (by simpa using hd), getLast_cons_getD]
        cases hfl : (rest.filter (fun e => decide (e.date ≤ day))).getLast? with
        | none => rfl
        | some x => rfl
      · simp only [applyChanges, if_neg hd]
        rw [List.filter_cons_of_neg (by simpa using hd)]
        have hnil : rest.filter (fun e => decide (e.date ≤ day)) = [] := by
          rw [List.filter_eq_nil_iff]
          intro a ha
          have h1 : e.date ≤ a.date := he a ha
          simp only [decide_eq_true_eq]
          omega
        rw [hnil]
        rfl

/-- The extracted event list is sorted by date. -/
theorem extract_sorted (histories : List History) :
    List.Sorted byDate (extract_status_changes histories) :=
  List.sorted_insertionSort byDate (rawStatusEvents histories)

/-- Claim C3: `status_on_date` returns the `to` status of the last event with
date ≤ the query day (events taken in their stable date-ascending order), the
initial status when no event qualifies, and in particular the initial status
on every day when the change history is empty. -/
theorem status_on_date_spec :
    (∀ (initial : String) (histories : List History) (day : Nat),
        status_on_date initial histories day =
          (((extract_status_changes histories).filter
              (fun e => decide (e.date ≤ day))).getLast?).elim initial
            (fun e => e.toStatus)) ∧
      (∀ (initial : String) (day : Nat),
        status_on_date initial [] day = initial) := by
  constructor
  · intro initial histories day
    exact applyChanges_eq_getLast day _ (extract_sorted histories) initial
  · intro initial day
    rfl

/-! ### Day-range emission (C4, C6) -/

/-- Unfolding equation of `daterange` matching the source loop. -/
theorem daterange_if (s e : Nat) :
    daterange s e = if s ≤ e then s :: daterange (s + 1) e else [] := by
  unfold daterange
  by_cases hse : s ≤ e
  · have h1 : e + 1 - s = (e - s) + 1 := by omega
    have h2 : e - s = e + 1 - (s + 1) := by omega
    rw [h1, if_pos hse]
    show s :: daterangeAux (e - s) (s + 1) = _
    rw [h2]
  · have h1 : e + 1 - s = 0 := by omega
    rw [h1, if_neg hse]
    rfl

/-- An empty day range. -/
theorem daterange_of_gt {s e : Nat} (h : e < s) : daterange s e = [] := by
  rw [daterange_if, if_neg (by omega)]

/-- Dropping the days before `c` from `[s, e]` leaves `[max c s, e]`. -/
theorem daterange_filter_le (c e : Nat) :
    ∀ (n s : Nat), e + 1 - s ≤ n →
      (daterange s e).filter (fun d => decide (c ≤ d))
        = daterange (max c s) e := by
  intro n
  induction n with
  | zero =>
      intro s h
      rw [daterange_of_gt (by omega), daterange_of_gt (by omega : e < max c s)]
      rfl
  | succ n ih =>
      intro s h
      by_cases hse : s ≤ e
      · rw [daterange_if s e, if_pos hse, List.filter_cons]
        by_cases hcs : c ≤ s
        · rw [if_pos (by simpa using hcs), ih (s + 1) (by omega)]
          have h2 : max c (s + 1) = s + 1 := by omega
          have h3 : max c s = s := by omega
          rw [h2, h3, daterange_if s e, if_pos hse]
        · rw [if_neg (by simpa using hcs), ih (s + 1) (by omega)]
          have h2 : max c (s + 1) = c := by omega
          have h3 : max c s = c := by omega
          rw [h2, h3]
      · rw [daterange_of_gt (by omega), daterange_of_gt (by omega : e < max c s)]
        rfl

/-- The dates of one issue's emitted records are the input days at or after
the creation date. -/
theorem issueRows_map_date (cfg : Config) (iss : IssueData) :
    ∀ (l : List Nat),
      ((issueRows cfg l iss).map (fun r => r.date))
        = l.filter (fun d => decide (iss.created ≤ d)) := by
  intro l
  induction l with
  | nil => rfl
  | cons d t ih =>
      unfold issueRows at ih ⊢
      by_cases hd : d < iss.created
      · rw [List.filterMap_cons_none (by rw [if_pos hd]), ih,
          List.filter_cons_of_neg (by simp; omega)]
      · rw [List.filterMap_cons_some (by rw [if_neg hd]), List.map_cons, ih,
          List.filter_cons_of_pos (by simp; omega)]
        rfl

/-- The dates of one issue's records over the sprint range are exactly
`[max created sprint_start, sprint_end]`. -/
theorem issueRows_dates (cfg : Config) (s e : Nat) (iss : IssueData) :
    (issueRows cfg (daterange s e) iss).map (fun r => r.date)
      = daterange (max iss.created s) e := by
  rw [issueRows_map_date,
    daterange_filter_le iss.created e (e + 1 - s) s (Nat.le_refl _)]

/-- Claim C4: for every issue, a record is emitted exactly for each day in
`[max(created, sprintStart), sprintEnd]` and for no other day. -/
theorem issueRows_emission_days (cfg : Config) (s e : Nat) (iss : IssueData) :
    (issueRows cfg (daterange s e) iss).map (fun r => r.date)
      = daterange (max iss.created s) e :=
  issueRows_dates cfg s e iss

/-- Claim C6: an unparseable story-point value is treated as 0, the issue
still emits a record for each of its days, and every one of its remaining
values is 0. -/
theorem malformed_points_recovery :
    parse_sp SPRaw.unparseable = 0 ∧
    (∀ (cfg : Config) (init : String) (histories : List History) (day : Nat),
        remaining_on_day cfg 0 init histories day = 0) ∧
    (∀ (cfg : Config) (s e : Nat) (key init : String) (created : Nat)
        (histories : List History),
        (issueRows cfg (daterange s e)
            { key := key, sp_field := SPRaw.unparseable,
              initial_status := init, created := created,
              histories := histories }).map (fun r => r.date)
          = daterange (max created s) e) ∧
    (∀ (cfg : Config) (days : List Nat) (key init : String) (created : Nat)
        (histories : List History),
        (issueRows cfg days
            { key := key, sp_field := SPRaw.unparseable,
              initial_status := init, created := created,
              histories := histories }).all
          (fun r => decide (r.remaining_for_issue = 0)) = true) := by
  refine ⟨rfl, ?_, ?_, ?_⟩
  · intro cfg init histories day
    rcases remaining_zero_or_sp cfg 0 init histories day with h | h <;> exact h
  · intro cfg s e key init created histories
    exact issueRows_dates cfg s e _
  · intro cfg days key init created histories
    rw [List.all_eq_true]
    intro r hr
    rcases mem_issueRows.mp hr with ⟨day, _, _, rfl⟩
    have h0 : remaining_on_day cfg 0 init histories day = 0 := by
      rcases remaining_zero_or_sp cfg 0 init histories day with h | h <;> exact h
    simp [recordFor, parse_sp, h0]

/-! ### Daily-totals coverage (C1) -/

/-- Keys of `bump`: membership adds (at most) the bumped key. -/
theorem bump_keys_mem :
    ∀ (m : List (Nat × ℚ)) (k : Nat) (v : ℚ) (d : Nat),
      d ∈ (bump m k v).map Prod.fst ↔ d ∈ m.map Prod.fst ∨ d = k := by
  intro m k v d
  induction m with
  | nil => simp [bump]
  | cons p t ih =>
      rcases p with ⟨a, x⟩
      by_cases hak : a = k
      · have hb : bump ((a, x) :: t) k v = (a, x + v) :: t := by
          simp [bump, hak]
        rw [hb]
        subst hak
        simp only [List.map_cons, List.mem_cons]
        tauto
      · simp only [bump, if_neg hak, List.map_cons, List.mem_cons, ih]
        tauto

/-- `bump` keeps the keys duplicate-free. -/
theorem bump_keys_nodup :
    ∀ (m : List (Nat × ℚ)) (k : Nat) (v : ℚ),
      (m.map Prod.fst).Nodup → ((bump m k v).map Prod.fst).Nodup := by
  intro m k v
  induction m with
  | nil => intro _; simp [bump]
  | cons p t ih =>
      rcases p with ⟨a, x⟩
      intro h
      rw [List.map_cons, List.nodup_cons] at h
      rcases h with ⟨ha, ht⟩
      by_cases hak : a = k
      · subst hak
        simp only [bump, if_pos rfl, List.map_cons]
        exact List.nodup_cons.mpr ⟨ha, ht⟩
      · simp only [bump, if_neg hak, List.map_cons]
        rw [List.nodup_cons]
        refine ⟨?_, ih ht⟩
        rw [bump_keys_mem]
        rintro (h1 | rfl)
        · exact ha h1
        · exact hak rfl

/-- Keys accumulated by the aggregation loop: the start keys plus the row
dates. -/
theorem foldl_dayStep_keys_mem :
    ∀ (rows : List DailyRecord) (m : List (Nat × ℚ)) (d : Nat),
      d ∈ ((rows.foldl dayStep m).map Prod.fst) ↔
        d ∈ m.map Prod.fst ∨ d ∈ rows.map (fun r => r.date) := by
  intro rows
  induction rows with
  | nil => intro m d; simp
  | cons r t ih =>
      intro m d
      rw [List.foldl_cons, ih]
      unfold dayStep
      rw [bump_keys_mem]
      simp only [List.map_cons, List.mem_cons]
      tauto

/-- The aggregation loop keeps keys duplicate-free. -/
theorem foldl_dayStep_keys_nodup :
    ∀ (rows : List DailyRecord) (m : List (Nat × ℚ)),
      (m.map Prod.fst).Nodup → ((rows.foldl dayStep m).map Prod.fst).Nodup := by
  intro rows
  induction rows with
  | nil => intro m h; simpa using h
  | cons r t ih =>
      intro m h
      rw [List.foldl_cons]
      exact ih _ (bump_keys_nodup m _ _ h)

/-- `daily_table` with its local binding expanded. -/
theorem daily_table_eq (rows : List DailyRecord) :
    daily_table rows =
      (List.insertionSort (· ≤ ·) ((by_day rows).map Prod.fst)).map
        (fun d => (d, format2 (((by_day rows).lookup d).getD 0))) := rfl

theorem daily_table_keys (rows : List DailyRecord) :
    (daily_table rows).map Prod.fst =
      List.insertionSort (· ≤ ·) ((by_day rows).map Prod.fst) := by
  have hcomp : ∀ l : List Nat,
      (l.map (fun d =>
        (d, format2 (((by_day rows).lookup d).getD 0)))).map Prod.fst = l := by
    intro l
    induction l with
    | nil => rfl
    | cons a t ih => simp [ih]
  rw [daily_table_eq]
  exact hcomp _

/-- Claim C1 counterexample: in the `ex1` run, day 0 is a sprint day (the
sprint is days 0–2) but no issue has a record for it (the only issue is
created on day 2), and the daily-totals table omits it instead of showing a
0.00 row. -/
theorem daily_table_omits_empty_day :
    0 ∈ daterange 0 2 ∧
      0 ∉ (daily_table (all_rows ex1)).map Prod.fst := by decide

/-- Claim C1 (amended): the dates of the daily-totals table are sorted
ascending, duplicate-free, and are exactly the days for which some issue has
a record — a sprint day with no record is omitted, not shown as 0.00 — and a
zero total renders as "0.00", never blank. -/
theorem daily_table_coverage (inp : Inputs) :
    List.Sorted (· ≤ ·) ((daily_table (all_rows inp)).map Prod.fst) ∧
    ((daily_table (all_rows inp)).map Prod.fst).Nodup ∧
    (∀ d : Nat, d ∈ (daily_table (all_rows inp)).map Prod.fst ↔
        d ∈ (all_rows inp).map (fun r => r.date)) ∧
    format2 0 = "0.00" := by
  refine ⟨?_, ?_, ?_, ?_⟩
  · rw [daily_table_keys]
    exact List.sorted_insertionSort _ _
  · rw [daily_table_keys]
    exact ((List.perm_insertionSort _ _).nodup_iff).mpr
      (foldl_dayStep_keys_nodup (all_rows inp) [] (by simp))
  · intro d
    rw [daily_table_keys, (List.perm_insertionSort _ _).mem_iff]
    unfold by_day
    rw [foldl_dayStep_keys_mem]
    simp
  · have h : (0 : ℚ) * 100 = 0 := by norm_num
    rw [format2, h]
    decide

end JiraRemainingPoints
